import Mathlib

/-!
Verification of the retrieval engine of the Azure DevOps work-item QA system:
the recursive text splitter (chunker.py), the in-memory vector store
(ado_vector_store.py), the QA orchestration layer (ado_qa_system.py) and the
incremental embedding ingestion (embedding.py).

Python floats are modelled as exact real numbers; the Azure OpenAI embedding
and generation network calls are modelled as injected capability functions
whose outcome (success value or caught error) is a parameter.  Python
exceptions that the code catches are modelled by `Option`/`Except` results.
-/

namespace ADOSpec

/- ---------------------------------------------------------------------------
Python string helpers shared by several modules.
--------------------------------------------------------------------------- -/

/-- The whitespace characters stripped by Python `str.strip()` (ASCII part). -/
def isPySpace (c : Char) : Bool :=
  c = ' ' || c = '\t' || c = '\n' || c = '\r' || c = '\x0b' || c = '\x0c'

/-- Python `s.strip()`: drop leading and trailing whitespace. -/
def pyStrip (s : String) : String :=
  (((s.toList.dropWhile isPySpace).reverse.dropWhile isPySpace).reverse).asString

/-- Python `s.replace("\n", " ")`: a single-character pattern, so a map
over the characters. -/
def pyReplaceNl (s : String) : String :=
  (s.toList.map (fun c => if c = '\n' then ' ' else c)).asString

/-- `query.replace("\n", " ").strip()` — the query cleaning done before
embedding requests (ado_vector_store.py line 105, embedding.py line 41). -/
def pyCleanQuery (q : String) : String :=
  pyStrip (pyReplaceNl q)

/- ---------------------------------------------------------------------------
ado_vector_store.py — vector math (`cosine_similarity`, lines 129-147).
`np.dot` is the sum of pointwise products, `np.linalg.norm` the square root
of the sum of squares.
--------------------------------------------------------------------------- -/

/-- `np.dot(vec1, vec2)` on 1-d arrays: the sum of pointwise products. -/
def dotList (v1 v2 : List ℝ) : ℝ :=
  (List.zipWith (· * ·) v1 v2).sum

/-- Sum of squares of the entries of a vector. -/
def sumSq (v : List ℝ) : ℝ :=
  (v.map (fun x => x * x)).sum

/-- `np.linalg.norm(v)`: the Euclidean norm, `sqrt` of the sum of squares. -/
noncomputable def normList (v : List ℝ) : ℝ :=
  Real.sqrt (sumSq v)

/-- `ADOVectorStore.cosine_similarity` (ado_vector_store.py lines 129-147):
`dot / (norm1 * norm2)`, returning `0.0` when either norm is zero. -/
noncomputable def cosine_similarity (vec1 vec2 : List ℝ) : ℝ :=
  let dot_product := dotList vec1 vec2
  let norm1 := normList vec1
  let norm2 := normList vec2
  if norm1 = 0 ∨ norm2 = 0 then 0.0
  else dot_product / (norm1 * norm2)

/- ---------------------------------------------------------------------------
ado_vector_store.py — the store data model and `similarity_search`.
--------------------------------------------------------------------------- -/

/-- The optional-key metadata dict carried by every chunk record.  The keys
read by the QA layer are `title`, `state`, `type`, `assigned_to`, `priority`
and `area_path`; `none` models an absent (or falsy) key. -/
structure WorkitemMeta where
  title : Option String
  state : Option String
  wtype : Option String
  assigned_to : Option String
  priority : Option String
  area_path : Option String
deriving DecidableEq, Repr

/-- One entry of `self.embeddings_data` after loading: an embedding vector
plus the denormalized chunk metadata kept in `self.chunk_metadata`.
Work-item ids are stored in their canonical string form. -/
structure StoreRecord where
  embedding : List ℝ
  chunk_id : String
  content : String
  workitem_id : String
  metadata : WorkitemMeta

/-- One element of the list built by `similarity_search` (lines 191-198):
the record data together with its similarity score and its index `i` in the
loaded record order. -/
structure SearchResult where
  index : ℕ
  similarity : ℝ
  chunk_id : String
  content : String
  workitem_id : String
  metadata : WorkitemMeta

/-- `ADOVectorStore.get_query_embedding` (lines 94-127).  The Azure OpenAI
call is modelled by the injected capability `embedCap`; a `none` outcome
stands for any of the caught provider exceptions.  A blank query returns
`None` before the provider is ever consulted. -/
def get_query_embedding (embedCap : String → Option (List ℝ)) (query : String) :
    Option (List ℝ) :=
  let q := pyCleanQuery query
  if q = "" then none else embedCap q

/-- The work-item filter guard of `similarity_search` (lines 184-187):
Python `if workitem_filter:` is falsy for `None` and for the empty list;
the record is skipped when its id is not in a non-empty filter list. -/
def skippedByFilter (workitem_filter : Option (List String)) (wid : String) : Bool :=
  match workitem_filter with
  | none => false
  | some f => !f.isEmpty && !f.contains wid

/-- The descending-score ordering used by
`similarities.sort(key=lambda x: x['similarity'], reverse=True)`:
a stable sort placing `a` no later than `b` exactly when
`b.similarity ≤ a.similarity`. -/
def simGE (a b : SearchResult) : Prop := b.similarity ≤ a.similarity

noncomputable instance : DecidableRel simGE :=
  fun a b => inferInstanceAs (Decidable (b.similarity ≤ a.similarity))

instance : IsTotal SearchResult simGE :=
  ⟨fun a b => (le_total b.similarity a.similarity).imp id id⟩

instance : IsTrans SearchResult simGE :=
  ⟨fun _ _ _ hab hbc => le_trans hbc hab⟩

/-- `ADOVectorStore.similarity_search` (lines 149-202).  The enumerated scan
computes a cosine similarity per record, skips filtered-out records, keeps
scores at or above the threshold, sorts descending by score with Python's
stable sort, and returns the first `top_k` entries.  The query embedding
comes from `get_query_embedding`; an empty store or a failed embedding
yields `[]` (lines 168-176). -/
noncomputable def similarity_search (store : List StoreRecord)
    (embedCap : String → Option (List ℝ)) (query : String)
    (top_k : ℕ) (similarity_threshold : ℝ)
    (workitem_filter : Option (List String)) : List SearchResult :=
  if store.isEmpty then []
  else
    match get_query_embedding embedCap query with
    | none => []
    | some query_embedding =>
      let similarities := store.enum.filterMap (fun p =>
        let similarity := cosine_similarity query_embedding p.2.embedding
        if skippedByFilter workitem_filter p.2.workitem_id then none
        else if similarity_threshold ≤ similarity then
          some { index := p.1, similarity := similarity, chunk_id := p.2.chunk_id,
                 content := p.2.content, workitem_id := p.2.workitem_id,
                 metadata := p.2.metadata }
        else none)
      (similarities.insertionSort simGE).take top_k

/- ---------------------------------------------------------------------------
ado_vector_store.py — `get_related_workitems` (lines 227-281): group matches
per work item, aggregate max/avg scores, and sort by `(max, avg)` descending
with Python's stable sort.
--------------------------------------------------------------------------- -/

/-- One element of a `relevant_chunks` list (lines 258-262). -/
structure RelevantChunk where
  chunk_id : String
  content : String
  similarity : ℝ

/-- One element of `workitem_results` (lines 270-276). -/
structure WorkitemResult where
  workitem_id : String
  max_similarity : ℝ
  avg_similarity : ℝ
  chunk_count : ℕ
  relevant_chunks : List RelevantChunk

/-- The conversion done at lines 258-262 when a match is appended to
`workitem_contents`. -/
def toRelevantChunk (m : SearchResult) : RelevantChunk :=
  { chunk_id := m.chunk_id, content := m.content, similarity := m.similarity }

/-- Appending a match to its work item's bucket.  Python's two parallel
dicts `workitem_scores` / `workitem_contents` (lines 246-262) share the same
insertion-ordered key set and grow in lockstep, so they are modelled as one
insertion-ordered association from work-item id to that item's matches; a
fresh key is appended at the end, an existing key keeps its position. -/
def upsertGroup : List (String × List SearchResult) → String → SearchResult →
    List (String × List SearchResult)
  | [], k, m => [(k, [m])]
  | (k0, g0) :: rest, k, m =>
    if k0 = k then (k0, g0 ++ [m]) :: rest else (k0, g0) :: upsertGroup rest k m

/-- The grouping loop of `get_related_workitems` (lines 249-262). -/
def buildGroups (ms : List SearchResult) : List (String × List SearchResult) :=
  ms.foldl (fun gs m => upsertGroup gs m.workitem_id m) []

/-- Python `max(scores)` over a non-empty list, as a fold.  The `[]` case is
unreachable (Python `max` of an empty list raises; every bucket holds at
least the match that created it). -/
def maxScores : List ℝ → ℝ
  | [] => 0
  | x :: xs => xs.foldl max x

/-- The per-work-item aggregate of lines 266-276. -/
noncomputable def toWorkitemResult (g : String × List SearchResult) : WorkitemResult :=
  let scores := g.2.map (·.similarity)
  { workitem_id := g.1
    max_similarity := maxScores scores
    avg_similarity := scores.sum / (scores.length : ℝ)
    chunk_count := scores.length
    relevant_chunks := g.2.map toRelevantChunk }

/-- The sort key `(x['max_similarity'], x['avg_similarity'])` of line 279,
compared lexicographically as Python compares tuples. -/
def aggKey (w : WorkitemResult) : ℝ ×ₗ ℝ :=
  toLex (w.max_similarity, w.avg_similarity)

/-- The descending ordering of `workitem_results.sort(key=..., reverse=True)`
(line 279): a stable sort placing `a` no later than `b` exactly when
`aggKey b ≤ aggKey a`. -/
def aggGE (a b : WorkitemResult) : Prop := aggKey b ≤ aggKey a

noncomputable instance : DecidableRel aggGE :=
  fun a b => inferInstanceAs (Decidable (aggKey b ≤ aggKey a))

instance : IsTotal WorkitemResult aggGE :=
  ⟨fun a b => (le_total (aggKey b) (aggKey a)).imp id id⟩

instance : IsTrans WorkitemResult aggGE :=
  ⟨fun _ _ _ hab hbc => le_trans hbc hab⟩

/-- The aggregation-and-sort body of `get_related_workitems`
(lines 246-279, before the final `[:top_k]` truncation). -/
noncomputable def aggregate_workitems (ms : List SearchResult) : List WorkitemResult :=
  ((buildGroups ms).map toWorkitemResult).insertionSort aggGE

/-- `ADOVectorStore.get_related_workitems` (lines 227-281): oversample 50
raw matches, aggregate per work item, return the best `top_k` aggregates. -/
noncomputable def get_related_workitems (store : List StoreRecord)
    (embedCap : String → Option (List ℝ)) (query : String) (top_k : ℕ) :
    List WorkitemResult :=
  (aggregate_workitems (similarity_search store embedCap query 50 0.0 none)).take top_k

/- ---------------------------------------------------------------------------
ado_qa_system.py — the QA orchestration layer.
--------------------------------------------------------------------------- -/

/-- The provider errors caught by `_generate_response` (lines 196-203). -/
inductive GenError where
  | connection (msg : String)
  | rateLimit (msg : String)
  | status (code : ℕ) (response : String)
  | unexpected (msg : String)
deriving DecidableEq, Repr

/-- The GPT chat call of `_generate_response`, modelled as an injected
capability from (system message, user message) to either the generated text
or a caught provider error. -/
def GenCap : Type := String → String → Except GenError String

/-- Decimal rendering of the similarity in `f"{x:.3f}"` context lines:
modelled by the integer of thousandths after round-half-up.  Exact decimal
float formatting is outside the arithmetic model; only the fact that some
string is interpolated matters to the properties proved below. -/
noncomputable def fmt3 (x : ℝ) : String :=
  toString ⌊x * 1000 + 1 / 2⌋

/-- The per-chunk metadata lines of `_build_context_string` (lines 130-143):
each recognized key contributes a line when present. -/
def metaLines (md : WorkitemMeta) : String :=
  (match md.title with | some t => "Title: " ++ t ++ "\n" | none => "") ++
  (match md.state with | some s => "State: " ++ s ++ "\n" | none => "") ++
  (match md.wtype with | some t => "Type: " ++ t ++ "\n" | none => "") ++
  (match md.assigned_to with | some a => "Assigned To: " ++ a ++ "\n" | none => "") ++
  (match md.priority with | some p => "Priority: " ++ p ++ "\n" | none => "") ++
  (match md.area_path with | some a => "Area Path: " ++ a ++ "\n" | none => "")

/-- `_build_context_string` (lines 112-148): one block per retrieved chunk,
in search order. -/
noncomputable def build_context_string (chunks : List SearchResult)
    (include_metadata : Bool) : String :=
  (chunks.enum.map (fun p =>
    "\n--- Work Item Context " ++ toString (p.1 + 1) ++ " (Similarity: " ++
      fmt3 p.2.similarity ++ ") ---\n" ++
    "Work Item ID: " ++ p.2.workitem_id ++ "\n" ++
    "Chunk ID: " ++ p.2.chunk_id ++ "\n" ++
    (if include_metadata then metaLines p.2.metadata else "") ++
    "Content:\n" ++ p.2.content ++ "\n" ++
    "------------------------------------------------------------\n")).foldl
    (· ++ ·) ""

/-- The fixed instructional system message of `_generate_response`
(lines 162-177), abbreviated to its opening sentence; its exact wording is
irrelevant to every property proved below. -/
def system_message : String :=
  "You are an expert Azure DevOps assistant specializing in work item analysis and project management."

/-- The user message of `_generate_response` (line 179). -/
def user_message (query context : String) : String :=
  "Context:\n" ++ context ++ "\n\nUser Question: " ++ query ++ "\n\nAnswer:"

/-- The descriptive error strings of the four handlers of
`_generate_response` (lines 196-203). -/
def genErrorText : GenError → String
  | .connection e =>
      "Connection error to GPT model: " ++ e ++ ". Check your endpoint and network."
  | .rateLimit e =>
      "Rate limit exceeded for GPT model: " ++ e ++ ". Please wait and try again."
  | .status code resp =>
      "Azure OpenAI GPT API error: " ++ toString code ++ " - " ++ resp ++
        ". Check your model deployment name."
  | .unexpected e =>
      "An unexpected error occurred during response generation: " ++ e

/-- `_generate_response` (lines 150-203): on success the generated text, on
a caught provider error a descriptive error string — never an exception. -/
def generate_response (genCap : GenCap) (query context : String) : String :=
  match genCap system_message (user_message query context) with
  | .ok text => text
  | .error e => genErrorText e

/-- `_calculate_confidence` (lines 205-226): the tier from the maximum and
mean similarity of the retrieved chunks; `"low"` for no chunks. -/
noncomputable def calculate_confidence (chunks : List SearchResult) : String :=
  match chunks with
  | [] => "low"
  | c :: cs =>
    let max_similarity := (cs.map (·.similarity)).foldl max c.similarity
    let avg_similarity :=
      ((c :: cs).map (·.similarity)).sum / (((c :: cs).length : ℕ) : ℝ)
    if 0.8 ≤ max_similarity ∧ 0.6 ≤ avg_similarity then "high"
    else if 0.6 ≤ max_similarity ∧ 0.4 ≤ avg_similarity then "medium"
    else "low"

/-- One formatted source of `_format_sources` (lines 228-259). -/
structure SourceInfo where
  workitem_id : String
  chunk_id : String
  similarity : ℝ
  content_preview : String

/-- `_format_sources` (lines 228-259), restricted to the always-present
keys; the optional metadata enrichment carries no information used below. -/
noncomputable def format_sources (chunks : List SearchResult) : List SourceInfo :=
  chunks.map (fun c =>
    { workitem_id := c.workitem_id, chunk_id := c.chunk_id,
      similarity := c.similarity,
      content_preview :=
        if 200 < c.content.length then (c.content.take 200) ++ "..." else c.content })

/-- The result dict of `answer_question`.  `num_sources` is present only on
the successful branch (line 101), hence optional. -/
structure QAResult where
  answer : String
  sources : List SourceInfo
  confidence : String
  query : String
  num_sources : Option ℕ

/-- The fixed no-results answer of lines 79-84. -/
def noResultsAnswer : String :=
  "I could not find any relevant work items for your question. Please try rephrasing your query or check if the work item data has been properly indexed."

/-- The no-results sentinel returned when retrieval is empty (lines 78-84),
also reached when the query is blank or the embedding provider fails. -/
def noResultsSentinel (query : String) : QAResult :=
  { answer := noResultsAnswer, sources := [], confidence := "low",
    query := query, num_sources := none }

/-- `ADOQASystem.answer_question` (lines 48-110).  Retrieval, context
building, generation and confidence scoring; the surrounding
`try/except` is dead in this model because every modelled callee is total
(in particular `_generate_response` catches its provider errors itself), so
the `confidence: "error"` fallback of lines 104-110 is never produced. -/
noncomputable def answer_question (store : List StoreRecord)
    (embedCap : String → Option (List ℝ)) (genCap : GenCap)
    (query : String) (top_k : ℕ) (similarity_threshold : ℝ)
    (include_metadata : Bool) : QAResult :=
  let retrieved_chunks :=
    similarity_search store embedCap query top_k similarity_threshold none
  if retrieved_chunks.isEmpty then noResultsSentinel query
  else
    let context_str := build_context_string retrieved_chunks include_metadata
    let response := generate_response genCap query context_str
    let confidence := calculate_confidence retrieved_chunks
    { answer := response, sources := format_sources retrieved_chunks,
      confidence := confidence, query := query,
      num_sources := some retrieved_chunks.length }

/-- `ADOQASystem.batch_answer_questions` (lines 389-405): answer each
question in input order, appending each result. -/
noncomputable def batch_answer_questions (store : List StoreRecord)
    (embedCap : String → Option (List ℝ)) (genCap : GenCap)
    (questions : List String) : List QAResult :=
  questions.foldl
    (fun results question =>
      results ++ [answer_question store embedCap genCap question 5 0.3 true]) []

/- ---------------------------------------------------------------------------
chunker.py — `RecursiveCharacterTextSplitter`.
--------------------------------------------------------------------------- -/

/-- Scanner for Python `str.split` with a non-empty separator: emit the
accumulated token when the separator starts here, then skip the separator's
remaining characters via the `skip` counter. -/
def pySplitGo (sep : List Char) : List Char → ℕ → List Char → List (List Char)
  | [], _, acc => [acc.reverse]
  | _ :: rest, skip + 1, acc => pySplitGo sep rest skip acc
  | c :: rest, 0, acc =>
    if sep.isPrefixOf (c :: rest) then
      acc.reverse :: pySplitGo sep rest (sep.length - 1) []
    else pySplitGo sep rest 0 (c :: acc)

/-- Python `text.split(sep)` for a non-empty separator: non-overlapping
left-to-right cuts; the empty text yields `[""]`. -/
def pySplit (text sep : String) : List String :=
  (pySplitGo sep.toList text.toList 0 []).map List.asString

/-- The injected tokenizer capability (tiktoken in the source): text to
token sequence and back. -/
structure Tokenizer where
  encode : String → List ℕ
  decode : List ℕ → String

/-- The runtime error a Python `range` call with zero step raises. -/
inductive PyErr where
  | valueError
deriving DecidableEq, Repr

instance {ε α : Type} [DecidableEq ε] [DecidableEq α] : DecidableEq (Except ε α) :=
  fun a b =>
    match a, b with
    | .ok x, .ok y => decidable_of_iff (x = y) (by simp)
    | .error e, .error f => decidable_of_iff (e = f) (by simp)
    | .ok _, .error _ => isFalse (by simp)
    | .error _, .ok _ => isFalse (by simp)

/-- `range(0, stop, chunk_size - chunk_overlap)` as used for the sliding
windows: a zero step raises `ValueError`, a negative step from 0 upward is
the empty range, a positive step `s` yields `0, s, 2s, ...` below `stop`. -/
def pyRange0 (stop size overlap : ℕ) : Except PyErr (List ℕ) :=
  if size = overlap then .error .valueError
  else if size < overlap then .ok []
  else .ok ((List.range ((stop + (size - overlap) - 1) / (size - overlap))).map
    (· * (size - overlap)))

/-- The token sliding windows of chunker.py lines 49-52 and 108-110:
`decode(tokens[i : i + chunk_size])` for `i in range(0, len, size - overlap)`. -/
def tokenWindows (tok : Tokenizer) (size overlap : ℕ) (tokens : List ℕ) :
    Except PyErr (List String) := do
  let idxs ← pyRange0 tokens.length size overlap
  pure (idxs.map (fun i => tok.decode ((tokens.drop i).take size)))

/-- `text[i : i + chunk_size]` — a character slice. -/
def charSlice (text : String) (i size : ℕ) : String :=
  ((text.toList.drop i).take size).asString

/-- The last-resort character split of line 36, reached only when the
separator list is exhausted. -/
def charFallback (size overlap : ℕ) (text : String) : Except PyErr (List String) := do
  let idxs ← pyRange0 text.length size overlap
  pure (idxs.map (fun i => charSlice text i size))

/-- The empty-separator branch of lines 41-52: the text itself when it fits
the token budget, otherwise decoded token windows. -/
def emptySepSplit (tok : Tokenizer) (size overlap : ℕ) (text : String) :
    Except PyErr (List String) :=
  if (tok.encode text).length ≤ size then .ok [text]
  else tokenWindows tok size overlap (tok.encode text)

/-- Python `tokens[-(overlap):]` of line 76.  Note `-(0)` is `0`, so an
overlap of zero keeps the whole list. -/
def pyTailSlice (overlap : ℕ) (l : List ℕ) : List ℕ :=
  if overlap = 0 then l else l.drop (l.length - overlap)

/-- Lines 63-80: add a fitting part to the chunk list, extending the last
chunk, seeding an overlap prefix, or starting a fresh chunk. -/
def addPart (tok : Tokenizer) (size overlap : ℕ) (sep : String)
    (chunks : List String) (part : String) : List String :=
  match chunks.getLast? with
  | none => chunks ++ [part]
  | some last =>
    if size < (tok.encode (last ++ sep ++ part)).length then chunks ++ [part]
    else
      let last_chunk_tokens := tok.encode last
      let part_tokens := tok.encode part
      if last_chunk_tokens.length + part_tokens.length + (tok.encode sep).length ≤ size
      then chunks.dropLast ++ [last ++ sep ++ part]
      else
        let overlap_text := tok.decode (pyTailSlice overlap last_chunk_tokens)
        if (tok.encode (overlap_text ++ sep ++ part)).length ≤ size then
          chunks ++ [overlap_text ++ sep ++ part]
        else chunks ++ [part]

/-- One step of the refinement pass of lines 83-100: prepend the previous
chunk's trailing `overlap` tokens when the combination stays in budget. -/
def refineStep (tok : Tokenizer) (size overlap : ℕ) (sep : String)
    (finals : List String) (cur : String) : List String :=
  match finals.getLast? with
  | none => finals ++ [cur]
  | some prev =>
    let prev_chunk_tokens := tok.encode prev
    let overlap_tokens := prev_chunk_tokens.drop (prev_chunk_tokens.length - overlap)
    let overlap_text := tok.decode overlap_tokens
    let combined_text := if overlap_text ≠ "" then overlap_text ++ sep ++ cur else cur
    if (tok.encode combined_text).length ≤ size then finals ++ [combined_text]
    else finals ++ [cur]

/-- The refinement pass of lines 83-100. -/
def refinePass (tok : Tokenizer) (size overlap : ℕ) (sep : String)
    (chunks : List String) : List String :=
  chunks.foldl (refineStep tok size overlap sep) []

/-- The final pass of lines 103-112: any chunk still over budget is force
split into token windows. -/
def reSplit (tok : Tokenizer) (size overlap : ℕ) (chunks : List String) :
    Except PyErr (List String) :=
  chunks.foldlM (fun acc chunk =>
    let tokens := tok.encode chunk
    if size < tokens.length then do
      let ws ← tokenWindows tok size overlap tokens
      pure (acc ++ ws)
    else pure (acc ++ [chunk])) ([] : List String)

/-- `RecursiveCharacterTextSplitter._split_text` (lines 32-114): recursive
separator cascade.  A non-empty separator splits the text, packs the parts
(recursing into oversized parts with the finer separators), then runs the
refinement and force-split passes; the empty separator and the exhausted
separator list are the base cases. -/
def splitText (tok : Tokenizer) (size overlap : ℕ) :
    List String → String → Except PyErr (List String)
  | [], text => charFallback size overlap text
  | sep :: others, text =>
    if sep = "" then emptySepSplit tok size overlap text
    else do
      let chunks ← (pySplit text sep).foldlM (fun chunks part =>
        if part = "" then pure chunks
        else if size < (tok.encode part).length then do
          let sub ← splitText tok size overlap others part
          pure (chunks ++ sub)
        else pure (addPart tok size overlap sep chunks part)) ([] : List String)
      reSplit tok size overlap (refinePass tok size overlap sep chunks)
termination_by seps _ => seps.length

/-- The default separator cascade of the constructor (line 29). -/
def defaultSeparators : List String := ["\n\n", "\n", " ", "", ""]

/-- One processed chunk of `split_document` (lines 136-140). -/
structure DocChunk where
  content : String
  filepath : String
  chunk_id : String
deriving DecidableEq, Repr

/-- `RecursiveCharacterTextSplitter.split_document` (lines 116-141): split,
then drop whitespace-only chunks and attach stripped content and ids. -/
def split_document (tok : Tokenizer) (size overlap : ℕ) (seps : List String)
    (document_content filepath : String) : Except PyErr (List DocChunk) := do
  let chunks ← splitText tok size overlap seps document_content
  pure (chunks.enum.filterMap (fun p =>
    if pyStrip p.2 = "" then none
    else some { content := pyStrip p.2, filepath := filepath,
                chunk_id := filepath ++ "_" ++ toString p.1 }))

/- ---------------------------------------------------------------------------
embedding.py — incremental embedding ingestion.
--------------------------------------------------------------------------- -/

/-- One chunk read from `stage/chunked_workitems.json`; `μ` is the opaque
metadata payload forwarded untouched. -/
structure EmbChunk (μ : Type) where
  chunk_id : String
  content : String
  workitem_id : String
  metadata : μ
deriving DecidableEq, Repr

/-- One persisted embedding record (embedding.py lines 114-120). -/
structure EmbRecord (μ : Type) where
  chunk_id : String
  content : String
  workitem_id : String
  embedding : List ℚ
  metadata : μ
deriving DecidableEq, Repr

/-- `generate_embeddings_with_retry` (lines 68-89): up to `remaining`
attempts against the embedding capability, indexed by attempt number; the
first successful vector wins. -/
def retryFrom (embedCap : ℕ → String → Option (List ℚ)) (text : String) :
    ℕ → ℕ → Option (List ℚ)
  | _, 0 => none
  | attempt, remaining + 1 =>
    match embedCap attempt text with
    | some v => some v
    | none => retryFrom embedCap text (attempt + 1) remaining

/-- `generate_embeddings_with_retry(text, max_retries=3)`. -/
def generate_embeddings_with_retry (embedCap : ℕ → String → Option (List ℚ))
    (text : String) (max_retries : ℕ) : Option (List ℚ) :=
  retryFrom embedCap text 0 max_retries

/-- `generate_embeddings_for_chunks` (lines 91-135): embed each chunk's
content; failed chunks are reported and dropped. -/
def generate_embeddings_for_chunks {μ : Type}
    (embedCap : ℕ → String → Option (List ℚ)) (chunks : List (EmbChunk μ)) :
    List (EmbRecord μ) :=
  chunks.foldl (fun acc chunk =>
    match generate_embeddings_with_retry embedCap chunk.content 3 with
    | some embedding =>
      acc ++ [{ chunk_id := chunk.chunk_id, content := chunk.content,
                workitem_id := chunk.workitem_id, embedding := embedding,
                metadata := chunk.metadata }]
    | none => acc) []

/-- Assignment `d[k] = v` into an insertion-ordered Python dict: replace in
place when the key exists, append otherwise. -/
def dictInsert {μ : Type} : List (String × EmbRecord μ) → String → EmbRecord μ →
    List (String × EmbRecord μ)
  | [], k, v => [(k, v)]
  | (k0, v0) :: rest, k, v =>
    if k0 = k then (k0, v) :: rest else (k0, v0) :: dictInsert rest k v

/-- `load_existing_embeddings` (lines 152-176): the persisted record list
keyed by chunk id, in insertion order. -/
def load_existing_embeddings {μ : Type} (persisted : List (EmbRecord μ)) :
    List (String × EmbRecord μ) :=
  persisted.foldl (fun d item => dictInsert d item.chunk_id item) []

/-- The incremental part of `embedding.main` (lines 209-227): skip chunks
whose id is already persisted, embed the rest, and append the new records
after the existing ones.  The returned list is the persisted record set
after the run (when nothing is new, `main` returns early at line 214-216 and
the file is left untouched). -/
def incremental_merge {μ : Type} (chunks : List (EmbChunk μ))
    (persisted : List (EmbRecord μ))
    (embedCap : ℕ → String → Option (List ℚ)) : List (EmbRecord μ) :=
  let existing_embeddings := load_existing_embeddings persisted
  let new_chunks := chunks.filter
    (fun c => !(existing_embeddings.map (·.1)).contains c.chunk_id)
  if new_chunks.isEmpty then persisted
  else
    existing_embeddings.map (·.2) ++ generate_embeddings_for_chunks embedCap new_chunks

/- ---------------------------------------------------------------------------
Vector math lemmas for C2.
--------------------------------------------------------------------------- -/

theorem sumSq_nonneg (v : List ℝ) : 0 ≤ sumSq v := by
  refine List.sum_nonneg ?_
  intro x hx
  rcases List.mem_map.mp hx with ⟨y, _, rfl⟩
  exact mul_self_nonneg y

theorem dotList_self (v : List ℝ) : dotList v v = sumSq v := by
  induction v with
  | nil => rfl
  | cons x xs ih => simpa [dotList, sumSq] using ih

theorem schwarz_step (x y D A B : ℝ) (hA : 0 ≤ A) (hB : 0 ≤ B) (hD : D ^ 2 ≤ A * B) :
    0 ≤ x * x * B + y * y * A - 2 * (x * y) * D := by
  rcases eq_or_lt_of_le hB with hB0 | hBpos
  · have hD0 : D = 0 := by nlinarith [sq_nonneg D]
    subst hD0
    rw [← hB0]
    have h2 : 0 ≤ y * y * A := mul_nonneg (mul_self_nonneg y) hA
    linarith
  · have h2 : 0 ≤ y * y * (A * B - D ^ 2) := mul_nonneg (mul_self_nonneg y) (by linarith)
    have key : 0 ≤ (x * B - y * D) ^ 2 + y * y * (A * B - D ^ 2) :=
      add_nonneg (sq_nonneg _) h2
    have expand : (x * B - y * D) ^ 2 + y * y * (A * B - D ^ 2) =
        B * (x * x * B + y * y * A - 2 * (x * y) * D) := by ring
    rw [expand] at key
    exact nonneg_of_mul_nonneg_right key hBpos

/-- Cauchy-Schwarz for the list dot product. -/
theorem dotList_sq_le (a : List ℝ) : ∀ b : List ℝ,
    (dotList a b) ^ 2 ≤ sumSq a * sumSq b := by
  induction a with
  | nil =>
    intro b
    simp [dotList, sumSq]
  | cons x xs ih =>
    intro b
    cases b with
    | nil => simp [dotList, sumSq]
    | cons y ys =>
      have hA := sumSq_nonneg xs
      have hB := sumSq_nonneg ys
      have hIH := ih ys
      have hF := schwarz_step x y (dotList xs ys) (sumSq xs) (sumSq ys) hA hB hIH
      show (dotList (x :: xs) (y :: ys)) ^ 2 ≤ sumSq (x :: xs) * sumSq (y :: ys)
      have e1 : dotList (x :: xs) (y :: ys) = x * y + dotList xs ys := by
        simp [dotList]
      have e2 : sumSq (x :: xs) = x * x + sumSq xs := by simp [sumSq]
      have e3 : sumSq (y :: ys) = y * y + sumSq ys := by simp [sumSq]
      rw [e1, e2, e3]
      nlinarith [hF, hIH]

theorem normList_nonneg (v : List ℝ) : 0 ≤ normList v := Real.sqrt_nonneg _

theorem normList_eq_zero_iff (v : List ℝ) : normList v = 0 ↔ sumSq v = 0 := by
  unfold normList
  exact Real.sqrt_eq_zero (sumSq_nonneg v)

theorem abs_dotList_le (a b : List ℝ) : |dotList a b| ≤ normList a * normList b := by
  have h1 : |dotList a b| = Real.sqrt ((dotList a b) ^ 2) :=
    (Real.sqrt_sq_eq_abs _).symm
  have h2 : Real.sqrt ((dotList a b) ^ 2) ≤ Real.sqrt (sumSq a * sumSq b) :=
    Real.sqrt_le_sqrt (dotList_sq_le a b)
  have h3 : Real.sqrt (sumSq a * sumSq b) = normList a * normList b := by
    unfold normList
    exact Real.sqrt_mul (sumSq_nonneg a) _
  rw [h1, ← h3]
  exact h2

/-- C2: the cosine similarity equals `dot / (|a|·|b|)` when both norms are
non-zero, is exactly `0` when either norm is zero, always lies in `[-1, 1]`,
and equals `1` on `(a, a)` whenever `|a| > 0` (exact real arithmetic). -/
theorem claim_C2_cosine_similarity (a b : List ℝ) :
    (normList a ≠ 0 → normList b ≠ 0 →
      cosine_similarity a b = dotList a b / (normList a * normList b)) ∧
    ((normList a = 0 ∨ normList b = 0) → cosine_similarity a b = 0) ∧
    -1 ≤ cosine_similarity a b ∧ cosine_similarity a b ≤ 1 ∧
    (0 < normList a → cosine_similarity a a = 1) := by
  refine ⟨?_, ?_, ?_, ?_, ?_⟩
  · intro h1 h2
    unfold cosine_similarity
    simp [h1, h2]
  · intro h
    unfold cosine_similarity
    simp only [if_pos h]
    norm_num
  · by_cases h : normList a = 0 ∨ normList b = 0
    · unfold cosine_similarity
      rw [if_pos h]
      norm_num
    · push_neg at h
      unfold cosine_similarity
      simp only [if_neg (by tauto : ¬(normList a = 0 ∨ normList b = 0))]
      have hpa : 0 < normList a := lt_of_le_of_ne (normList_nonneg a) (Ne.symm h.1)
      have hpb : 0 < normList b := lt_of_le_of_ne (normList_nonneg b) (Ne.symm h.2)
      have habs : |dotList a b / (normList a * normList b)| ≤ 1 := by
        rw [abs_div, abs_of_pos (mul_pos hpa hpb)]
        exact div_le_one_of_le (abs_dotList_le a b) (mul_pos hpa hpb).le
      exact (abs_le.mp habs).1
  · by_cases h : normList a = 0 ∨ normList b = 0
    · unfold cosine_similarity
      rw [if_pos h]
      norm_num
    · push_neg at h
      unfold cosine_similarity
      simp only [if_neg (by tauto : ¬(normList a = 0 ∨ normList b = 0))]
      have hpa : 0 < normList a := lt_of_le_of_ne (normList_nonneg a) (Ne.symm h.1)
      have hpb : 0 < normList b := lt_of_le_of_ne (normList_nonneg b) (Ne.symm h.2)
      have habs : |dotList a b / (normList a * normList b)| ≤ 1 := by
        rw [abs_div, abs_of_pos (mul_pos hpa hpb)]
        exact div_le_one_of_le (abs_dotList_le a b) (mul_pos hpa hpb).le
      exact (abs_le.mp habs).2
  · intro hpos
    have hne : normList a ≠ 0 := ne_of_gt hpos
    unfold cosine_similarity
    simp only [if_neg (by tauto : ¬(normList a = 0 ∨ normList a = 0))]
    have hs : normList a * normList a = sumSq a := Real.mul_self_sqrt (sumSq_nonneg a)
    rw [dotList_self, hs]
    have : sumSq a ≠ 0 := by
      intro h0
      exact hne ((normList_eq_zero_iff a).mpr h0)
    exact div_self this

/-- Witness for C2 at concrete vectors: `cos([1],[1]) = 1` (non-zero norm)
and `cos([0],[1]) = 0` (zero norm). -/
theorem claim_C2_cosine_similarity_witness :
    cosine_similarity [1] [1] = 1 ∧ cosine_similarity [0] [1] = 0 := by
  have h1 : normList [1] = 1 := by
    simp [normList, sumSq]
  have h0 : normList [0] = 0 := by
    simp [normList, sumSq]
  constructor
  · exact (claim_C2_cosine_similarity [1] [1]).2.2.2.2 (by rw [h1]; norm_num)
  · exact (claim_C2_cosine_similarity [0] [1]).2.1 (Or.inl h0)

/- ---------------------------------------------------------------------------
Stability of the modelled Python sort (`List.insertionSort` with a
"no later than" relation) with respect to an injective rank.
--------------------------------------------------------------------------- -/

theorem sublist_pair_antisymm {α : Type} {a b : α} :
    ∀ {l : List α}, l.Nodup → List.Sublist [a, b] l → List.Sublist [b, a] l → a = b := by
  intro l
  induction l with
  | nil => intro _ h1; cases h1
  | cons c t ih =>
    intro hnd h1 h2
    have hct : c ∉ t := (List.nodup_cons.mp hnd).1
    have hndt : t.Nodup := (List.nodup_cons.mp hnd).2
    cases h1 with
    | cons _ h1t =>
      cases h2 with
      | cons _ h2t => exact ih hndt h1t h2t
      | cons₂ _ h2t =>
        exact absurd (h1t.subset (show b ∈ [a, b] by simp)) hct
    | cons₂ _ h1t =>
      cases h2 with
      | cons _ h2t =>
        exact absurd (h2t.subset (show a ∈ [b, a] by simp)) hct
      | cons₂ _ h2t => rfl

theorem pair_sublist_of_mem {α : Type} {a b : α} :
    ∀ {l : List α}, a ∈ l → b ∈ l → a ≠ b →
      List.Sublist [a, b] l ∨ List.Sublist [b, a] l := by
  intro l
  induction l with
  | nil => intro ha; cases ha
  | cons c t ih =>
    intro ha hb hne
    rcases List.mem_cons.mp ha with rfl | hat
    · have hbt : b ∈ t := by
        rcases List.mem_cons.mp hb with rfl | h
        · exact absurd rfl hne
        · exact h
      exact Or.inl ((List.singleton_sublist.mpr hbt).cons₂ a)
    · rcases List.mem_cons.mp hb with rfl | hbt
      · exact Or.inr ((List.singleton_sublist.mpr hat).cons₂ b)
      · exact (ih hat hbt hne).imp (List.Sublist.cons c) (List.Sublist.cons c)

/-- Stability of the stable descending sort: if the input is strictly
ordered by a rank, the output is ordered by strictly descending key with
rank-order tie-breaking. -/
theorem insertionSort_key_pairwise {α γ : Type} [LinearOrder γ]
    (key : α → γ) (idx : α → ℕ) (r : α → α → Prop) [DecidableRel r]
    [IsTotal α r] [IsTrans α r]
    (hr : ∀ a b, r a b ↔ key b ≤ key a)
    {l : List α} (hl : l.Pairwise (fun a b => idx a < idx b)) :
    (l.insertionSort r).Pairwise
      (fun a b => key b < key a ∨ (key a = key b ∧ idx a < idx b)) := by
  have hnd : l.Nodup := hl.imp (fun h => by
    intro he
    rw [he] at h
    exact lt_irrefl _ h)
  have hperm : List.Perm (l.insertionSort r) l := l.perm_insertionSort r
  have hout_nd : (l.insertionSort r).Nodup := hperm.nodup_iff.mpr hnd
  have hsorted : (l.insertionSort r).Pairwise r := l.sorted_insertionSort r
  rw [List.pairwise_iff_forall_sublist]
  intro a b hsub
  have hrab : r a b := List.pairwise_iff_forall_sublist.mp hsorted hsub
  have hkey : key b ≤ key a := (hr a b).mp hrab
  rcases lt_or_eq_of_le hkey with hlt | heq
  · exact Or.inl hlt
  · refine Or.inr ⟨heq.symm, ?_⟩
    by_contra hnot
    have hane : a ≠ b := by
      intro he
      subst he
      exact (List.pairwise_iff_forall_sublist.mp hout_nd hsub) rfl
    have hal : a ∈ l := hperm.subset (hsub.subset (by simp))
    have hbl : b ∈ l := hperm.subset (hsub.subset (by simp))
    rcases pair_sublist_of_mem hal hbl hane with hab | hba
    · exact hnot (List.pairwise_iff_forall_sublist.mp hl hab)
    · have hrba : r b a := (hr b a).mpr (le_of_eq heq.symm)
      have hba_out : List.Sublist [b, a] (l.insertionSort r) :=
        List.pair_sublist_insertionSort hrba hba
      exact hane (sublist_pair_antisymm hout_nd hsub hba_out)

/- ---------------------------------------------------------------------------
C1 — similarity search: bounded, thresholded, sorted, stable.
--------------------------------------------------------------------------- -/

theorem enum_pairwise_fst {α : Type} (l : List α) :
    l.enum.Pairwise (fun p q => p.1 < q.1) := by
  have h1 : (l.enum.map Prod.fst).Pairwise (· < ·) := by
    rw [List.enum_map_fst]
    exact List.pairwise_lt_range l.length
  exact (List.pairwise_map.mp h1)

/-- The entries the similarity scan produces from one enumerated record. -/
theorem similarity_scan_entry {query_embedding : List ℝ} {thr : ℝ}
    {filt : Option (List String)} {p : ℕ × StoreRecord} {m : SearchResult}
    (h : (if skippedByFilter filt p.2.workitem_id then none
          else if thr ≤ cosine_similarity query_embedding p.2.embedding then
            some { index := p.1,
                   similarity := cosine_similarity query_embedding p.2.embedding,
                   chunk_id := p.2.chunk_id, content := p.2.content,
                   workitem_id := p.2.workitem_id,
                   metadata := p.2.metadata }
          else none) = some m) :
    m.index = p.1 ∧ thr ≤ m.similarity := by
  by_cases h1 : skippedByFilter filt p.2.workitem_id
  · rw [if_pos h1] at h
    cases h
  · rw [if_neg h1] at h
    by_cases h2 : thr ≤ cosine_similarity query_embedding p.2.embedding
    · rw [if_pos h2] at h
      cases h
      exact ⟨rfl, h2⟩
    · rw [if_neg h2] at h
      cases h

/-- C1: for every store, embedding capability, query, `top_k`, threshold and
filter, `similarity_search` returns at most `top_k` matches, every returned
match scores at least the threshold, and the matches are pairwise ordered by
strictly descending score with ties in ascending record order. -/
theorem claim_C1_similarity_search (store : List StoreRecord)
    (embedCap : String → Option (List ℝ)) (query : String)
    (top_k : ℕ) (thr : ℝ) (filt : Option (List String)) :
    (similarity_search store embedCap query top_k thr filt).length ≤ top_k ∧
    (∀ m ∈ similarity_search store embedCap query top_k thr filt,
      thr ≤ m.similarity) ∧
    (similarity_search store embedCap query top_k thr filt).Pairwise
      (fun a b => b.similarity < a.similarity ∨
        (a.similarity = b.similarity ∧ a.index < b.index)) := by
  unfold similarity_search
  by_cases hempty : store.isEmpty
  · simp [hempty]
  · rw [if_neg hempty]
    cases hq : get_query_embedding embedCap query with
    | none => simp
    | some query_embedding =>
      set f : ℕ × StoreRecord → Option SearchResult := fun p =>
        let similarity := cosine_similarity query_embedding p.2.embedding
        if skippedByFilter filt p.2.workitem_id then none
        else if thr ≤ similarity then
          some { index := p.1, similarity := similarity, chunk_id := p.2.chunk_id,
                 content := p.2.content, workitem_id := p.2.workitem_id,
                 metadata := p.2.metadata }
        else none with hf
      have hidx : (store.enum.filterMap f).Pairwise (fun a b => a.index < b.index) := by
        rw [List.pairwise_filterMap]
        refine (enum_pairwise_fst store).imp ?_
        intro p q hpq
        intro x hx y hy
        have hx1 := (similarity_scan_entry (by simpa [hf] using hx)).1
        have hy1 := (similarity_scan_entry (by simpa [hf] using hy)).1
        rw [hx1, hy1]
        exact hpq
      have hthr : ∀ m ∈ store.enum.filterMap f, thr ≤ m.similarity := by
        intro m hm
        rcases List.mem_filterMap.mp hm with ⟨p, _, hpm⟩
        exact (similarity_scan_entry (by simpa [hf] using hpm)).2
      have hsorted := insertionSort_key_pairwise (fun m : SearchResult => m.similarity)
        (fun m : SearchResult => m.index) simGE
        (fun a b => Iff.rfl) hidx (l := store.enum.filterMap f)
      refine ⟨?_, ?_, ?_⟩
      · rw [List.length_take]
        exact min_le_left _ _
      · intro m hm
        have h1 : m ∈ (store.enum.filterMap f).insertionSort simGE :=
          List.mem_of_mem_take hm
        have h2 : m ∈ store.enum.filterMap f :=
          ((store.enum.filterMap f).perm_insertionSort simGE).subset h1
        exact hthr m h2
      · exact hsorted.sublist (List.take_sublist _ _)

/- ---------------------------------------------------------------------------
C3 — confidence tiers.
--------------------------------------------------------------------------- -/

/-- A metadata record with every optional key absent. -/
def emptyMeta : WorkitemMeta :=
  { title := none, state := none, wtype := none, assigned_to := none,
    priority := none, area_path := none }

/-- A search result carrying only a similarity score, for concrete tests. -/
def mkScored (s : ℝ) : SearchResult :=
  { index := 0, similarity := s, chunk_id := "", content := "",
    workitem_id := "", metadata := emptyMeta }

/-- `M` is the maximum of the list `l`. -/
def IsMaxOf (M : ℝ) (l : List ℝ) : Prop :=
  M ∈ l ∧ ∀ y ∈ l, y ≤ M

theorem foldl_max_spec (x : ℝ) : ∀ l : List ℝ, IsMaxOf (l.foldl max x) (x :: l) := by
  intro l
  induction l generalizing x with
  | nil => exact ⟨by simp, by simp⟩
  | cons y ys ih =>
    have h := ih (max x y)
    have hhead : max x y ≤ List.foldl max (max x y) ys :=
      h.2 _ (List.mem_cons_self _ _)
    constructor
    · rw [List.foldl_cons]
      rcases List.mem_cons.mp h.1 with hm | hm
      · rcases max_choice x y with hxy | hxy
        · rw [hm, hxy]
          exact List.mem_cons_self _ _
        · rw [hm, hxy]
          simp
      · simp [hm]
    · intro z hz
      rw [List.foldl_cons]
      rcases List.mem_cons.mp hz with rfl | hz2
      · exact le_trans (le_max_left _ y) hhead
      · rcases List.mem_cons.mp hz2 with rfl | hz3
        · exact le_trans (le_max_right x _) hhead
        · exact h.2 _ (List.mem_cons_of_mem _ hz3)

theorem isMax_unique {M N : ℝ} {l : List ℝ} (h1 : IsMaxOf M l) (h2 : IsMaxOf N l) :
    M = N :=
  le_antisymm (h2.2 M h1.1) (h1.2 N h2.1)

/-- C3: for a non-empty match list with true maximum `maxScore` and mean
`avgScore`, the confidence is `"high"` iff `maxScore ≥ 0.8 ∧ avgScore ≥ 0.6`,
`"medium"` iff not high and `maxScore ≥ 0.6 ∧ avgScore ≥ 0.4`, and `"low"`
otherwise; the empty list gives `"low"`; and at the boundary,
`maxScore = 0.8, avgScore = 0.6` is `"high"` while `maxScore = 0.79` with the
same mean is not. -/
theorem claim_C3_confidence_tiers :
    (∀ (chunks : List SearchResult) (maxScore avgScore : ℝ),
      chunks ≠ [] →
      IsMaxOf maxScore (chunks.map (·.similarity)) →
      avgScore = (chunks.map (·.similarity)).sum / (chunks.length : ℝ) →
      ((calculate_confidence chunks = "high" ↔ 0.8 ≤ maxScore ∧ 0.6 ≤ avgScore) ∧
       (calculate_confidence chunks = "medium" ↔
         ¬(0.8 ≤ maxScore ∧ 0.6 ≤ avgScore) ∧ 0.6 ≤ maxScore ∧ 0.4 ≤ avgScore) ∧
       (calculate_confidence chunks = "low" ↔
         ¬(0.8 ≤ maxScore ∧ 0.6 ≤ avgScore) ∧
         ¬(0.6 ≤ maxScore ∧ 0.4 ≤ avgScore)))) ∧
    calculate_confidence [] = "low" ∧
    calculate_confidence [mkScored 0.8, mkScored 0.4] = "high" ∧
    calculate_confidence [mkScored 0.79, mkScored 0.41] ≠ "high" := by
  refine ⟨?_, ?_, ?_, ?_⟩
  · intro chunks maxScore avgScore hne hmax havg
    cases chunks with
    | nil => exact absurd rfl hne
    | cons c cs =>
      have hM : IsMaxOf ((cs.map (·.similarity)).foldl max c.similarity)
          ((c :: cs).map (·.similarity)) := by
        simpa using foldl_max_spec c.similarity (cs.map (·.similarity))
      have hMeq : (cs.map (·.similarity)).foldl max c.similarity = maxScore :=
        isMax_unique hM hmax
      simp only [calculate_confidence]
      rw [hMeq, ← havg]
      by_cases h1 : 0.8 ≤ maxScore ∧ 0.6 ≤ avgScore
      · rw [if_pos h1]
        refine ⟨by simp [h1], by simp [h1], by simp [h1]⟩
      · rw [if_neg h1]
        by_cases h2 : 0.6 ≤ maxScore ∧ 0.4 ≤ avgScore
        · rw [if_pos h2]
          refine ⟨by simp [h1], by simp [h1, h2], by simp [h2]⟩
        · rw [if_neg h2]
          refine ⟨by simp [h1], by simp [h2], by simp [h1, h2]⟩
  · rfl
  · simp only [calculate_confidence, mkScored, List.map_cons, List.map_nil,
      List.foldl_cons, List.foldl_nil, List.sum_cons, List.sum_nil,
      List.length_cons, List.length_nil]
    rw [if_pos ⟨le_max_left _ _, by push_cast; norm_num⟩]
  · have hm : max (0.79 : ℝ) 0.41 = 0.79 := max_eq_left (by norm_num)
    simp only [calculate_confidence, mkScored, List.map_cons, List.map_nil,
      List.foldl_cons, List.foldl_nil, List.sum_cons, List.sum_nil,
      List.length_cons, List.length_nil]
    rw [if_neg (by rw [hm]; push_cast; norm_num)]
    split_ifs <;> decide

/-- Witness for C3: a single match of score 1 has confidence `"high"`. -/
theorem claim_C3_confidence_tiers_witness :
    calculate_confidence [mkScored 1] = "high" := by
  have h := (claim_C3_confidence_tiers.1 [mkScored 1] 1 1
    (by simp)
    (by constructor <;> simp [mkScored])
    (by simp [mkScored])).1
  exact h.mpr (by norm_num)

/- ---------------------------------------------------------------------------
C9 — batch answering.
--------------------------------------------------------------------------- -/

theorem foldl_append_eq_map {α β : Type} (g : α → β) :
    ∀ (l : List α) (acc : List β),
      l.foldl (fun rs q => rs ++ [g q]) acc = acc ++ l.map g := by
  intro l
  induction l with
  | nil => intro acc; simp
  | cons x xs ih => intro acc; simp [ih]

/-- C9: batch answering maps `answer_question` over the questions in input
order: the result list has the input's length, the i-th result is the answer
of the i-th question, and each result depends only on its own question, so
one question's embedding or generation failure cannot affect any other. -/
theorem claim_C9_batch_answers (store : List StoreRecord)
    (embedCap : String → Option (List ℝ)) (genCap : GenCap)
    (questions : List String) :
    batch_answer_questions store embedCap genCap questions =
      questions.map (fun q => answer_question store embedCap genCap q 5 0.3 true) ∧
    (batch_answer_questions store embedCap genCap questions).length =
      questions.length := by
  have h := foldl_append_eq_map
    (fun q => answer_question store embedCap genCap q 5 0.3 true) questions []
  constructor
  · simpa [batch_answer_questions] using h
  · rw [show batch_answer_questions store embedCap genCap questions =
      questions.map (fun q => answer_question store embedCap genCap q 5 0.3 true) from
        by simpa [batch_answer_questions] using h]
    exact List.length_map _ _

/- ---------------------------------------------------------------------------
C6 — blank queries.
--------------------------------------------------------------------------- -/

theorem pyCleanQuery_of_blank {q : String} (h : q.toList.all isPySpace = true) :
    pyCleanQuery q = "" := by
  have hall : ∀ c ∈ q.data, isPySpace c = true := by
    simpa [List.all_eq_true, String.toList] using h
  have hrep : ∀ c ∈ (pyReplaceNl q).data, isPySpace c = true := by
    intro c hc
    have he : (pyReplaceNl q).data =
        q.data.map (fun c => if c = '\n' then ' ' else c) := rfl
    rw [he] at hc
    rcases List.mem_map.mp hc with ⟨d, hd, rfl⟩
    by_cases hdn : d = '\n'
    · simp [hdn, isPySpace]
    · simpa [hdn] using hall d hd
  have hdrop : List.dropWhile isPySpace (pyReplaceNl q).data = [] :=
    List.dropWhile_eq_nil_iff.mpr hrep
  show pyStrip (pyReplaceNl q) = ""
  unfold pyStrip
  rw [show (pyReplaceNl q).toList = (pyReplaceNl q).data from rfl, hdrop]
  rfl

/-- C6 (amended): a query that is empty or whitespace-only is detected
before the embedding provider is consulted (`get_query_embedding` returns
`none` for every capability) and `answer_question` returns the standard
no-results response with confidence `"low"` — it is a normal completion,
not an `InputError` rejection, and nothing is retried. -/
theorem claim_C6_blank_query (store : List StoreRecord)
    (embedCap : String → Option (List ℝ)) (genCap : GenCap)
    (query : String) (top_k : ℕ) (thr : ℝ) (inc : Bool)
    (h : query.toList.all isPySpace = true) :
    get_query_embedding embedCap query = none ∧
    answer_question store embedCap genCap query top_k thr inc =
      noResultsSentinel query := by
  have hclean : pyCleanQuery query = "" := pyCleanQuery_of_blank h
  have hemb : get_query_embedding embedCap query = none := by
    simp [get_query_embedding, hclean]
  refine ⟨hemb, ?_⟩
  have hsearch : similarity_search store embedCap query top_k thr none = [] := by
    unfold similarity_search
    by_cases hs : store.isEmpty
    · simp [hs]
    · rw [if_neg hs, hemb]
  simp [answer_question, hsearch]

/-- Counterexample for C6 as stated: on the empty query the operation does
not fail with an `InputError` — it completes normally with the no-results
sentinel, whose confidence is `"low"`, not an error marker. -/
theorem claim_C6_blank_query_counterexample :
    answer_question [] (fun _ => some [1]) (fun _ _ => Except.ok "ans") "" 5 0.3 true =
      noResultsSentinel "" ∧
    (noResultsSentinel "").confidence = "low" ∧
    (noResultsSentinel "").confidence ≠ "error" := by
  refine ⟨?_, rfl, by decide⟩
  simp [answer_question, similarity_search]

/-- Witness for C6 at the whitespace-only query `" \n "`. -/
theorem claim_C6_blank_query_witness :
    get_query_embedding (fun _ => some [1]) " \n " = none ∧
    answer_question [] (fun _ => some [1]) (fun _ _ => Except.ok "ans") " \n " 5 0.3 true =
      noResultsSentinel " \n " :=
  claim_C6_blank_query [] (fun _ => some [1]) (fun _ _ => Except.ok "ans")
    " \n " 5 0.3 true (by decide)

/- ---------------------------------------------------------------------------
A one-record store with unit vectors, for concrete evaluations.
--------------------------------------------------------------------------- -/

def demoStore : List StoreRecord :=
  [{ embedding := [1], chunk_id := "c1", content := "body", workitem_id := "w1",
     metadata := emptyMeta }]

def demoEmbed : String → Option (List ℝ) := fun _ => some [1]

def demoGenFail : GenCap := fun _ _ => Except.error (GenError.connection "boom")

noncomputable def demoEntry : SearchResult :=
  { index := 0, similarity := 1, chunk_id := "c1", content := "body",
    workitem_id := "w1", metadata := emptyMeta }

theorem cosine_one_one : cosine_similarity [1] [1] = 1 := by
  have h1 : sumSq [1] = 1 := by norm_num [sumSq]
  have hn : normList [1] = 1 := by rw [normList, h1]; exact Real.sqrt_one
  have hd : dotList [1] [1] = 1 := by norm_num [dotList]
  simp only [cosine_similarity, hd, hn]
  norm_num

theorem demo_search_eval :
    similarity_search demoStore demoEmbed "q" 5 0.3 none = [demoEntry] := by
  have hclean : pyCleanQuery "q" = "q" := by decide
  have hq : get_query_embedding demoEmbed "q" = some [1] := by
    simp [get_query_embedding, hclean, demoEmbed]
  unfold similarity_search
  rw [if_neg (by simp [demoStore])]
  rw [hq]
  simp only [demoStore, List.enum_cons, List.enumFrom_nil, List.filterMap_cons,
    List.filterMap_nil, skippedByFilter, cosine_one_one]
  rw [if_pos (by norm_num : (0.3 : ℝ) ≤ 1)]
  simp [List.insertionSort, List.orderedInsert, demoEntry]

theorem demo_confidence_eval : calculate_confidence [demoEntry] = "high" := by
  simp only [calculate_confidence, demoEntry, List.map_cons, List.map_nil,
    List.foldl_nil, List.sum_cons, List.sum_nil, List.length_cons, List.length_nil]
  rw [if_pos (by push_cast; norm_num)]

/- ---------------------------------------------------------------------------
C1 witness.
--------------------------------------------------------------------------- -/

/-- Witness for C1: on the one-record store the search returns one match of
score `1 ≥ 0.3`, within the `top_k = 5` bound. -/
theorem claim_C1_similarity_search_witness :
    (similarity_search demoStore demoEmbed "q" 5 0.3 none).length ≤ 5 ∧
    (0.3 : ℝ) ≤ demoEntry.similarity := by
  have h := claim_C1_similarity_search demoStore demoEmbed "q" 5 0.3 none
  exact ⟨h.1, h.2.1 demoEntry (by rw [demo_search_eval]; simp)⟩

/- ---------------------------------------------------------------------------
C5 — generation failure handling.
--------------------------------------------------------------------------- -/

theorem confidence_trichotomy (chunks : List SearchResult) :
    calculate_confidence chunks = "high" ∨ calculate_confidence chunks = "medium" ∨
    calculate_confidence chunks = "low" := by
  cases chunks with
  | nil => simp [calculate_confidence]
  | cons c cs =>
    simp only [calculate_confidence]
    split_ifs <;> simp

/-- C5 (amended): when retrieval found at least one chunk and the generation
call fails, `answer_question` still completes: the answer field is the
descriptive error string for the caught provider error (no exception reaches
the caller), and the confidence field is the tier computed from the match
scores — `"high"`, `"medium"` or `"low"`, never the `"error"` marker (which
only the dead outer exception handler could produce). -/
theorem claim_C5_generation_failure (store : List StoreRecord)
    (embedCap : String → Option (List ℝ)) (genCap : GenCap) (query : String)
    (top_k : ℕ) (thr : ℝ) (inc : Bool) (e : GenError)
    (hne : similarity_search store embedCap query top_k thr none ≠ [])
    (hfail : genCap system_message (user_message query
      (build_context_string (similarity_search store embedCap query top_k thr none) inc)) =
      Except.error e) :
    (answer_question store embedCap genCap query top_k thr inc).answer = genErrorText e ∧
    (answer_question store embedCap genCap query top_k thr inc).confidence =
      calculate_confidence (similarity_search store embedCap query top_k thr none) ∧
    (answer_question store embedCap genCap query top_k thr inc).confidence ≠ "error" := by
  have hie : ¬((similarity_search store embedCap query top_k thr none).isEmpty = true) := by
    rw [List.isEmpty_iff]
    exact hne
  unfold answer_question
  rw [if_neg hie]
  refine ⟨?_, rfl, ?_⟩
  · show generate_response genCap query _ = genErrorText e
    unfold generate_response
    rw [hfail]
  · show calculate_confidence _ ≠ "error"
    rcases confidence_trichotomy (similarity_search store embedCap query top_k thr none)
      with h | h | h <;> rw [h] <;> decide

/-- Counterexample for C5 as stated: with one retrieved match of score 1 and
a failing generation capability, the returned confidence is the computed
tier `"high"`, not `"error"`, while the answer is the descriptive error
string. -/
theorem claim_C5_generation_failure_counterexample :
    similarity_search demoStore demoEmbed "q" 5 0.3 none ≠ [] ∧
    (∀ s u, demoGenFail s u = Except.error (GenError.connection "boom")) ∧
    (answer_question demoStore demoEmbed demoGenFail "q" 5 0.3 true).answer =
      "Connection error to GPT model: boom. Check your endpoint and network." ∧
    (answer_question demoStore demoEmbed demoGenFail "q" 5 0.3 true).confidence = "high" ∧
    (answer_question demoStore demoEmbed demoGenFail "q" 5 0.3 true).confidence ≠ "error" := by
  have hne : similarity_search demoStore demoEmbed "q" 5 0.3 none ≠ [] := by
    rw [demo_search_eval]
    simp
  have hie : ¬((similarity_search demoStore demoEmbed "q" 5 0.3 none).isEmpty = true) := by
    rw [List.isEmpty_iff]
    exact hne
  refine ⟨hne, fun s u => rfl, ?_, ?_, ?_⟩
  · unfold answer_question
    rw [demo_search_eval, if_neg (by simp : ¬([demoEntry].isEmpty = true))]
    dsimp only
    show generate_response demoGenFail "q" _ = _
    unfold generate_response demoGenFail
    decide
  · unfold answer_question
    rw [demo_search_eval, if_neg (by simp : ¬([demoEntry].isEmpty = true))]
    dsimp only
    exact demo_confidence_eval
  · unfold answer_question
    rw [demo_search_eval, if_neg (by simp : ¬([demoEntry].isEmpty = true))]
    dsimp only
    show calculate_confidence [demoEntry] ≠ "error"
    rw [demo_confidence_eval]
    decide

/-- Witness for C5 (amended) at the one-record store and a failing
generation capability. -/
theorem claim_C5_generation_failure_witness :
    (answer_question demoStore demoEmbed demoGenFail "q" 5 0.3 true).answer =
      genErrorText (GenError.connection "boom") ∧
    (answer_question demoStore demoEmbed demoGenFail "q" 5 0.3 true).confidence =
      calculate_confidence (similarity_search demoStore demoEmbed "q" 5 0.3 none) ∧
    (answer_question demoStore demoEmbed demoGenFail "q" 5 0.3 true).confidence ≠ "error" :=
  claim_C5_generation_failure demoStore demoEmbed demoGenFail "q" 5 0.3 true
    (GenError.connection "boom")
    (by rw [demo_search_eval]; simp)
    rfl

/- ---------------------------------------------------------------------------
C7 — splitter configuration validation and empty input.
--------------------------------------------------------------------------- -/

/-- A unit-length tokenizer: one token per character. -/
def charTokenizer : Tokenizer :=
  { encode := fun s => s.toList.map Char.toNat,
    decode := fun ts => (ts.map Char.ofNat).asString }

/-- C7 (amended): the splitter never validates `chunk_overlap < chunk_size` —
no `InputError` exists in chunker.py — and splitting the empty text succeeds
with the empty chunk sequence for every configuration, the invalid
configurations `overlap ≥ size` included. -/
theorem claim_C7_split_validation (tok : Tokenizer) (size overlap : ℕ)
    (filepath : String) :
    split_document tok size overlap defaultSeparators "" filepath =
      Except.ok [] := by
  have hsplit : pySplit "" "\n\n" = [""] := by decide
  have hst : splitText tok size overlap defaultSeparators "" = Except.ok [] := by
    show splitText tok size overlap ("\n\n" :: ["\n", " ", "", ""]) "" = Except.ok []
    rw [splitText]
    rw [if_neg (by decide : ¬("\n\n" = ""))]
    rw [hsplit]
    simp only [List.foldlM_cons, List.foldlM_nil, if_pos rfl]
    rfl
  simp [split_document, hst]

/-- Counterexample for C7 as stated: with `chunk_overlap = chunk_size = 5`
(violating the claimed precondition) the splitter does not fail with an
`InputError`: it completes normally both on the empty text and on a short
non-empty text. -/
theorem claim_C7_split_validation_counterexample :
    split_document charTokenizer 5 5 defaultSeparators "" "f" = Except.ok [] ∧
    split_document charTokenizer 5 5 defaultSeparators "hi" "f" =
      Except.ok [{ content := "hi", filepath := "f", chunk_id := "f_0" }] := by
  constructor <;> (simp only [split_document, splitText, defaultSeparators]; decide)

/- ---------------------------------------------------------------------------
C8 — chunk size bound and non-blank chunks.
--------------------------------------------------------------------------- -/

/-- A chunk that either passed the token-count check or is a decoded window
of at most `size` tokens. -/
def GoodChunk (tok : Tokenizer) (size : ℕ) (c : String) : Prop :=
  (tok.encode c).length ≤ size ∨ ∃ ts : List ℕ, ts.length ≤ size ∧ c = tok.decode ts

theorem tokenWindows_shape {tok : Tokenizer} {size overlap : ℕ} {tokens : List ℕ}
    {ws : List String} (h : tokenWindows tok size overlap tokens = Except.ok ws) :
    ∀ c ∈ ws, ∃ ts : List ℕ, ts.length ≤ size ∧ c = tok.decode ts := by
  unfold tokenWindows at h
  cases hr : pyRange0 tokens.length size overlap with
  | error e => rw [hr] at h; cases h
  | ok idxs =>
    rw [hr] at h
    have hws : ws = idxs.map (fun i => tok.decode ((tokens.drop i).take size)) := by
      cases h
      rfl
    subst hws
    intro c hc
    rcases List.mem_map.mp hc with ⟨i, _, rfl⟩
    exact ⟨(tokens.drop i).take size, by simpa using List.length_take_le _ _, rfl⟩

theorem reSplit_go_bound {tok : Tokenizer} {size overlap : ℕ} :
    ∀ (chunks acc out : List String),
      (chunks.foldlM (fun acc chunk =>
        let tokens := tok.encode chunk
        if size < tokens.length then do
          let ws ← tokenWindows tok size overlap tokens
          pure (acc ++ ws)
        else pure (acc ++ [chunk])) acc) = Except.ok out →
      (∀ c ∈ acc, GoodChunk tok size c) → ∀ c ∈ out, GoodChunk tok size c := by
  intro chunks
  induction chunks with
  | nil =>
    intro acc out h hacc
    cases h
    exact hacc
  | cons ch rest ih =>
    intro acc out h hacc
    rw [List.foldlM_cons] at h
    by_cases hbig : size < (tok.encode ch).length
    · rw [if_pos hbig] at h
      cases hw : tokenWindows tok size overlap (tok.encode ch) with
      | error e =>
        rw [hw] at h
        cases h
      | ok ws =>
        rw [hw] at h
        refine ih (acc ++ ws) out h ?_
        intro c hc
        rcases List.mem_append.mp hc with hc1 | hc2
        · exact hacc c hc1
        · exact Or.inr (tokenWindows_shape hw c hc2)
    · rw [if_neg hbig] at h
      refine ih (acc ++ [ch]) out h ?_
      intro c hc
      rcases List.mem_append.mp hc with hc1 | hc2
      · exact hacc c hc1
      · rw [List.mem_singleton.mp hc2]
        exact Or.inl (le_of_not_lt hbig)

theorem reSplit_bound {tok : Tokenizer} {size overlap : ℕ} {chunks out : List String}
    (h : reSplit tok size overlap chunks = Except.ok out) :
    ∀ c ∈ out, GoodChunk tok size c :=
  reSplit_go_bound chunks [] out h (by intro c hc; cases hc)

theorem splitText_ok_bound {tok : Tokenizer} {size overlap : ℕ} {sep : String}
    {others : List String} {text : String} {out : List String}
    (hsep : sep ≠ "")
    (h : splitText tok size overlap (sep :: others) text = Except.ok out) :
    ∀ c ∈ out, GoodChunk tok size c := by
  rw [splitText, if_neg hsep] at h
  cases hloop : (pySplit text sep).foldlM (fun chunks part =>
      if part = "" then pure chunks
      else if size < (tok.encode part).length then do
        let sub ← splitText tok size overlap others part
        pure (chunks ++ sub)
      else pure (addPart tok size overlap sep chunks part)) ([] : List String) with
  | error e =>
    rw [show (do
        let chunks ← (pySplit text sep).foldlM (fun chunks part =>
          if part = "" then pure chunks
          else if size < (tok.encode part).length then do
            let sub ← splitText tok size overlap others part
            pure (chunks ++ sub)
          else pure (addPart tok size overlap sep chunks part)) ([] : List String)
        reSplit tok size overlap (refinePass tok size overlap sep chunks)) =
      Except.error e from by rw [hloop]; rfl] at h
    cases h
  | ok chunks =>
    rw [show (do
        let chunks ← (pySplit text sep).foldlM (fun chunks part =>
          if part = "" then pure chunks
          else if size < (tok.encode part).length then do
            let sub ← splitText tok size overlap others part
            pure (chunks ++ sub)
          else pure (addPart tok size overlap sep chunks part)) ([] : List String)
        reSplit tok size overlap (refinePass tok size overlap sep chunks)) =
      reSplit tok size overlap (refinePass tok size overlap sep chunks) from by
        rw [hloop]; rfl] at h
    exact reSplit_bound h

theorem dropWhile_head_false {α : Type} (p : α → Bool) :
    ∀ (l : List α) (x : α) (xs : List α), l.dropWhile p = x :: xs → p x = false := by
  intro l
  induction l with
  | nil => intro x xs h; cases h
  | cons c t ih =>
    intro x xs h
    by_cases hc : p c
    · rw [List.dropWhile_cons_of_pos hc] at h
      exact ih x xs h
    · rw [List.dropWhile_cons_of_neg hc] at h
      cases h
      exact Bool.not_eq_true _ ▸ (by simpa using hc)

theorem pyStrip_not_blank {s : String} (h : pyStrip s ≠ "") :
    (pyStrip s).data.all isPySpace = false := by
  set l1 := s.toList.dropWhile isPySpace with hl1
  have hdata : (pyStrip s).data = (l1.reverse.dropWhile isPySpace).reverse := rfl
  cases he : (l1.reverse.dropWhile isPySpace).reverse with
  | nil =>
    exfalso
    apply h
    show List.asString _ = ""
    rw [show ((l1.reverse.dropWhile isPySpace).reverse : List Char) = [] from he]
    rfl
  | cons x xs =>
    have hpre : (l1.reverse.dropWhile isPySpace).reverse.IsPrefix l1 := by
      rcases (List.dropWhile_suffix (l := l1.reverse) isPySpace) with ⟨t, ht⟩
      refine ⟨t.reverse, ?_⟩
      have := congrArg List.reverse ht
      simpa using this
    rcases hpre with ⟨t, ht⟩
    rw [he] at ht
    have hx : isPySpace x = false := dropWhile_head_false isPySpace s.toList x (xs ++ t)
      (by rw [← hl1, ← ht]; simp)
    rw [hdata, he]
    simp [hx]

/-- C8: every chunk produced by `split_document` with the default separator
cascade has token count at most `chunk_size`, and is neither empty nor
whitespace-only.  The tokenizer is assumed faithful: re-encoding a decoded
token window yields no more tokens than the window, and stripping text does
not increase its token count. -/
theorem claim_C8_chunk_bounds (tok : Tokenizer) (size overlap : ℕ)
    (content filepath : String) (cs : List DocChunk)
    (H1 : ∀ ts : List ℕ, (tok.encode (tok.decode ts)).length ≤ ts.length)
    (H2 : ∀ s : String, (tok.encode (pyStrip s)).length ≤ (tok.encode s).length)
    (h : split_document tok size overlap defaultSeparators content filepath =
      Except.ok cs) :
    ∀ c ∈ cs, (tok.encode c.content).length ≤ size ∧ c.content ≠ "" ∧
      c.content.data.all isPySpace = false := by
  unfold split_document at h
  cases hst : splitText tok size overlap defaultSeparators content with
  | error e =>
    rw [show (do
        let chunks ← splitText tok size overlap defaultSeparators content
        pure (chunks.enum.filterMap (fun p =>
          if pyStrip p.2 = "" then none
          else some { content := pyStrip p.2, filepath := filepath,
                      chunk_id := filepath ++ "_" ++ toString p.1 }))) =
      (Except.error e : Except PyErr (List DocChunk)) from by rw [hst]; rfl] at h
    cases h
  | ok raw =>
    rw [show (do
        let chunks ← splitText tok size overlap defaultSeparators content
        pure (chunks.enum.filterMap (fun p =>
          if pyStrip p.2 = "" then none
          else some { content := pyStrip p.2, filepath := filepath,
                      chunk_id := filepath ++ "_" ++ toString p.1 }))) =
      (Except.ok (raw.enum.filterMap (fun p =>
          if pyStrip p.2 = "" then none
          else some { content := pyStrip p.2, filepath := filepath,
                      chunk_id := filepath ++ "_" ++ toString p.1 })) :
        Except PyErr (List DocChunk)) from by rw [hst]; rfl] at h
    have hcs : cs = raw.enum.filterMap (fun p =>
        if pyStrip p.2 = "" then none
        else some { content := pyStrip p.2, filepath := filepath,
                    chunk_id := filepath ++ "_" ++ toString p.1 }) := by
      cases h
      rfl
    subst hcs
    intro c hc
    rcases List.mem_filterMap.mp hc with ⟨⟨i, r⟩, hpmem, hpsome⟩
    by_cases hblank : pyStrip r = ""
    · rw [if_pos hblank] at hpsome
      cases hpsome
    · rw [if_neg hblank] at hpsome
      have hcont : c.content = pyStrip r := by
        cases hpsome
        rfl
      have hraw : r ∈ raw := by
        have hz : (i, r) ∈ (List.range raw.length).zip raw := by
          rwa [← List.enum_eq_zip_range]
        exact (List.of_mem_zip hz).2
      have hgood : GoodChunk tok size r :=
        splitText_ok_bound (by decide : ("\n\n" : String) ≠ "") hst r hraw
      refine ⟨?_, ?_, ?_⟩
      · rw [hcont]
        rcases hgood with hle | ⟨ts, hts, hdec⟩
        · exact le_trans (H2 r) hle
        · calc (tok.encode (pyStrip r)).length
              ≤ (tok.encode r).length := H2 r
            _ = (tok.encode (tok.decode ts)).length := by rw [hdec]
            _ ≤ ts.length := H1 ts
            _ ≤ size := hts
      · rw [hcont]
        exact hblank
      · rw [hcont]
        exact pyStrip_not_blank hblank

theorem pyStrip_length_le (s : String) :
    (pyStrip s).data.length ≤ s.data.length := by
  have h1 : ((s.toList.dropWhile isPySpace).reverse.dropWhile isPySpace).length ≤
      (s.toList.dropWhile isPySpace).reverse.length :=
    (List.dropWhile_suffix isPySpace).sublist.length_le
  have h2 : (s.toList.dropWhile isPySpace).length ≤ s.toList.length :=
    (List.dropWhile_suffix isPySpace).sublist.length_le
  show ((s.toList.dropWhile isPySpace).reverse.dropWhile isPySpace).reverse.length ≤ _
  rw [List.length_reverse]
  rw [List.length_reverse] at h1
  exact le_trans h1 h2

/-- Witness for C8 at the character tokenizer, `chunk_size = 4`,
`chunk_overlap = 1` and the text `"ab cd"`: the two produced chunks `"ab"`
and `"b cd"` satisfy the bound and are non-blank. -/
theorem claim_C8_chunk_bounds_witness :
    ((charTokenizer.encode "ab").length ≤ 4 ∧ "ab" ≠ "" ∧
      "ab".data.all isPySpace = false) ∧
    ((charTokenizer.encode "b cd").length ≤ 4 ∧ "b cd" ≠ "" ∧
      "b cd".data.all isPySpace = false) := by
  have H1 : ∀ ts : List ℕ, (charTokenizer.encode (charTokenizer.decode ts)).length ≤
      ts.length := by
    intro ts
    simp [charTokenizer]
  have H2 : ∀ s : String, (charTokenizer.encode (pyStrip s)).length ≤
      (charTokenizer.encode s).length := by
    intro s
    simpa [charTokenizer] using pyStrip_length_le s
  have h : split_document charTokenizer 4 1 defaultSeparators "ab cd" "f" =
      Except.ok [{ content := "ab", filepath := "f", chunk_id := "f_0" },
                 { content := "b cd", filepath := "f", chunk_id := "f_1" }] := by
    simp only [split_document, splitText, defaultSeparators]
    decide
  have hall := claim_C8_chunk_bounds charTokenizer 4 1 "ab cd" "f" _ H1 H2 h
  exact ⟨hall { content := "ab", filepath := "f", chunk_id := "f_0" } (by simp),
         hall { content := "b cd", filepath := "f", chunk_id := "f_1" } (by simp)⟩

/- ---------------------------------------------------------------------------
C10 — incremental embedding ingestion.
--------------------------------------------------------------------------- -/

theorem dictInsert_of_not_mem {μ : Type} (k : String) (v : EmbRecord μ) :
    ∀ d : List (String × EmbRecord μ), k ∉ d.map (·.1) →
      dictInsert d k v = d ++ [(k, v)] := by
  intro d
  induction d with
  | nil => intro _; rfl
  | cons p rest ih =>
    intro h
    rw [List.map_cons, List.mem_cons] at h
    push_neg at h
    show dictInsert (p :: rest) k v = _
    rcases p with ⟨k0, v0⟩
    rw [dictInsert]
    rw [if_neg (fun he => h.1 he.symm)]
    rw [ih h.2]
    rfl

theorem load_existing_eq {μ : Type} (persisted : List (EmbRecord μ))
    (hnd : (persisted.map (·.chunk_id)).Nodup) :
    load_existing_embeddings persisted =
      persisted.map (fun r => (r.chunk_id, r)) := by
  induction persisted using List.reverseRecOn with
  | nil => rfl
  | append_singleton l r ih =>
    have hmap : (l ++ [r]).map (fun x => x.chunk_id) =
        l.map (fun x => x.chunk_id) ++ [r.chunk_id] := by simp
    rw [hmap] at hnd
    have hndl : (l.map (fun x => x.chunk_id)).Nodup :=
      (List.nodup_append.mp hnd).1
    have hnotin : r.chunk_id ∉ l.map (fun x => x.chunk_id) := by
      intro hmem
      have hdisj := (List.nodup_append.mp hnd).2.2
      exact hdisj hmem (by simp)
    show (l ++ [r]).foldl (fun d item => dictInsert d item.chunk_id item) [] = _
    rw [List.foldl_append]
    have hload : l.foldl (fun d item => dictInsert d item.chunk_id item) [] =
        l.map (fun x => (x.chunk_id, x)) := ih hndl
    rw [hload]
    show dictInsert (l.map fun x => (x.chunk_id, x)) r.chunk_id r = _
    rw [dictInsert_of_not_mem r.chunk_id r _ (by simpa using hnotin)]
    simp

/-- C10: with distinct persisted chunk ids, incremental ingestion skips
every chunk whose id is already persisted; when exactly one new chunk
remains and its embedding succeeds, the merged record set is the old one
with exactly one record appended — count plus one, no existing record
altered, and the new record's id was not present before. -/
theorem claim_C10_incremental_merge {μ : Type} (chunks : List (EmbChunk μ))
    (persisted : List (EmbRecord μ)) (embedCap : ℕ → String → Option (List ℚ))
    (c0 : EmbChunk μ) (v : List ℚ)
    (hnd : (persisted.map (·.chunk_id)).Nodup)
    (hnew : chunks.filter
      (fun c => !((persisted.map (·.chunk_id)).contains c.chunk_id)) = [c0])
    (hemb : generate_embeddings_with_retry embedCap c0.content 3 = some v) :
    incremental_merge chunks persisted embedCap =
      persisted ++ [{ chunk_id := c0.chunk_id, content := c0.content,
                      workitem_id := c0.workitem_id, embedding := v,
                      metadata := c0.metadata }] ∧
    (incremental_merge chunks persisted embedCap).length = persisted.length + 1 ∧
    (incremental_merge chunks persisted embedCap).take persisted.length =
      persisted ∧
    c0.chunk_id ∉ persisted.map (·.chunk_id) := by
  have hload := load_existing_eq persisted hnd
  have hkeys : (load_existing_embeddings persisted).map (·.1) =
      persisted.map (·.chunk_id) := by
    rw [hload]
    simp
  have hvals : (load_existing_embeddings persisted).map (·.2) = persisted := by
    rw [hload, List.map_map]
    show List.map (fun r : EmbRecord μ => r) persisted = persisted
    exact List.map_id' persisted
  have hgen : generate_embeddings_for_chunks embedCap [c0] =
      [{ chunk_id := c0.chunk_id, content := c0.content,
         workitem_id := c0.workitem_id, embedding := v,
         metadata := c0.metadata }] := by
    unfold generate_embeddings_for_chunks
    rw [List.foldl_cons, hemb, List.foldl_nil]
    rfl
  have hmain : incremental_merge chunks persisted embedCap =
      persisted ++ [{ chunk_id := c0.chunk_id, content := c0.content,
                      workitem_id := c0.workitem_id, embedding := v,
                      metadata := c0.metadata }] := by
    simp only [incremental_merge]
    rw [hkeys, hnew]
    rw [if_neg (by simp)]
    rw [hvals, hgen]
  have hc0 : c0.chunk_id ∉ persisted.map (·.chunk_id) := by
    have hmem : c0 ∈ chunks.filter
        (fun c => !((persisted.map (·.chunk_id)).contains c.chunk_id)) := by
      rw [hnew]
      simp
    have hpred := (List.mem_filter.mp hmem).2
    simp only [Bool.not_eq_true'] at hpred
    intro hin
    rw [List.contains_eq_any_beq] at hpred
    have : (persisted.map (·.chunk_id)).any (c0.chunk_id == ·) = true := by
      rw [List.any_eq_true]
      exact ⟨c0.chunk_id, hin, by simp⟩
    rw [this] at hpred
    cases hpred
  refine ⟨hmain, ?_, ?_, hc0⟩
  · rw [hmain]
    simp
  · rw [hmain]
    exact List.take_left _ _

/-- Witness for C10: one persisted record, a two-chunk rerun where the first
chunk id is already present and the second is new. -/
theorem claim_C10_incremental_merge_witness :
    incremental_merge
      [{ chunk_id := "a", content := "x", workitem_id := "w", metadata := () },
       { chunk_id := "b", content := "y", workitem_id := "w", metadata := () }]
      [{ chunk_id := "a", content := "x", workitem_id := "w", embedding := [1],
         metadata := () }]
      (fun _ _ => some [2]) =
      [{ chunk_id := "a", content := "x", workitem_id := "w", embedding := [1],
         metadata := () },
       { chunk_id := "b", content := "y", workitem_id := "w", embedding := [2],
         metadata := () }] ∧
    (incremental_merge
      [{ chunk_id := "a", content := "x", workitem_id := "w", metadata := () },
       { chunk_id := "b", content := "y", workitem_id := "w", metadata := () }]
      [{ chunk_id := "a", content := "x", workitem_id := "w", embedding := [1],
         metadata := () }]
      (fun _ _ => some [2])).length = 2 := by
  have h := claim_C10_incremental_merge
    [{ chunk_id := "a", content := "x", workitem_id := "w", metadata := () },
     { chunk_id := "b", content := "y", workitem_id := "w", metadata := () }]
    [{ chunk_id := "a", content := "x", workitem_id := "w", embedding := [1],
       metadata := () }]
    (fun _ _ => some [2])
    { chunk_id := "b", content := "y", workitem_id := "w", metadata := () }
    [2]
    (by decide) (by decide) rfl
  exact ⟨h.1, h.2.1⟩

/- ---------------------------------------------------------------------------
C4 — per-entity aggregation: grouping lemmas.
--------------------------------------------------------------------------- -/

/-- The index of the first match owned by `wid`, i.e. the first-seen
position of that work item in the match list. -/
def posOf (ms : List SearchResult) (wid : String) : ℕ :=
  ms.findIdx (fun m => m.workitem_id == wid)

theorem upsertGroup_flatMap (k : String) (m : SearchResult) :
    ∀ gs : List (String × List SearchResult),
      ((upsertGroup gs k m).flatMap (·.2)).Perm (gs.flatMap (·.2) ++ [m]) := by
  intro gs
  induction gs with
  | nil => simp [upsertGroup]
  | cons p rest ih =>
    rcases p with ⟨k0, g0⟩
    rw [upsertGroup]
    by_cases hk : k0 = k
    · rw [if_pos hk]
      simp only [List.flatMap_cons]
      have : (g0 ++ [m]) ++ rest.flatMap (·.2) =
          g0 ++ ([m] ++ rest.flatMap (·.2)) := by simp
      rw [this, List.append_assoc]
      exact List.Perm.append_left g0 List.perm_append_comm
    · rw [if_neg hk]
      simp only [List.flatMap_cons]
      have := ih.append_left g0
      refine this.trans ?_
      simp

theorem buildGroups_flatMap_perm (ms : List SearchResult) :
    ((buildGroups ms).flatMap (·.2)).Perm ms := by
  suffices h : ∀ (l : List SearchResult) (acc : List (String × List SearchResult)),
      ((l.foldl (fun gs m => upsertGroup gs m.workitem_id m) acc).flatMap (·.2)).Perm
        (acc.flatMap (·.2) ++ l) by
    simpa using h ms []
  intro l
  induction l with
  | nil => intro acc; simp
  | cons m rest ih =>
    intro acc
    rw [List.foldl_cons]
    refine (ih (upsertGroup acc m.workitem_id m)).trans ?_
    refine (List.Perm.append_right rest (upsertGroup_flatMap m.workitem_id m acc)).trans ?_
    simp

/-- Well-formedness of the grouping: every bucket is non-empty and holds
only matches of its own work item. -/
def GroupsWF (gs : List (String × List SearchResult)) : Prop :=
  ∀ p ∈ gs, p.2 ≠ [] ∧ ∀ x ∈ p.2, x.workitem_id = p.1

theorem upsertGroup_wf {gs : List (String × List SearchResult)} {m : SearchResult}
    (h : GroupsWF gs) : GroupsWF (upsertGroup gs m.workitem_id m) := by
  induction gs with
  | nil =>
    intro p hp
    rcases List.mem_singleton.mp hp with rfl
    exact ⟨by simp, by simp⟩
  | cons q rest ih =>
    rcases q with ⟨k0, g0⟩
    have hq := h ⟨k0, g0⟩ (by simp)
    have hrest : GroupsWF rest := fun p hp => h p (List.mem_cons_of_mem _ hp)
    rw [upsertGroup]
    by_cases hk : k0 = m.workitem_id
    · rw [if_pos hk]
      intro p hp
      rcases List.mem_cons.mp hp with rfl | hp2
      · refine ⟨by simp, ?_⟩
        intro x hx
        rcases List.mem_append.mp hx with hx1 | hx2
        · exact hq.2 x hx1
        · rw [List.mem_singleton.mp hx2, ← hk]
      · exact hrest p hp2
    · rw [if_neg hk]
      intro p hp
      rcases List.mem_cons.mp hp with rfl | hp2
      · exact hq
      · exact ih hrest p hp2

theorem buildGroups_wf (ms : List SearchResult) : GroupsWF (buildGroups ms) := by
  suffices h : ∀ (l : List SearchResult) (acc : List (String × List SearchResult)),
      GroupsWF acc → GroupsWF (l.foldl (fun gs m => upsertGroup gs m.workitem_id m) acc) by
    exact h ms [] (fun p hp => absurd hp (List.not_mem_nil p))
  intro l
  induction l with
  | nil => intro acc hacc; exact hacc
  | cons m rest ih =>
    intro acc hacc
    rw [List.foldl_cons]
    exact ih _ (upsertGroup_wf hacc)

theorem upsertGroup_keys_mem {gs : List (String × List SearchResult)} {k : String}
    (m : SearchResult) (h : k ∈ gs.map (·.1)) :
    (upsertGroup gs k m).map (·.1) = gs.map (·.1) := by
  induction gs with
  | nil => cases h
  | cons q rest ih =>
    rcases q with ⟨k0, g0⟩
    rw [upsertGroup]
    by_cases hk : k0 = k
    · rw [if_pos hk]
      simp
    · rw [if_neg hk]
      have h2 : k ∈ rest.map (·.1) := by
        rcases List.mem_cons.mp h with he | hm
        · exact absurd he.symm hk
        · exact hm
      simp [ih h2]

theorem upsertGroup_keys_not_mem {gs : List (String × List SearchResult)} {k : String}
    (m : SearchResult) (h : k ∉ gs.map (·.1)) :
    (upsertGroup gs k m).map (·.1) = gs.map (·.1) ++ [k] := by
  induction gs with
  | nil => rfl
  | cons q rest ih =>
    rcases q with ⟨k0, g0⟩
    rw [List.map_cons, List.mem_cons] at h
    push_neg at h
    rw [upsertGroup]
    rw [if_neg (fun he => h.1 he.symm)]
    simp [ih h.2]

theorem findIdx_append_of_exists {α : Type} (p : α → Bool) :
    ∀ (l1 l2 : List α), (∃ x ∈ l1, p x = true) →
      (l1 ++ l2).findIdx p = l1.findIdx p := by
  intro l1
  induction l1 with
  | nil =>
    intro l2 h
    rcases h with ⟨x, hx, _⟩
    cases hx
  | cons c t ih =>
    intro l2 h
    by_cases hc : p c
    · simp [List.findIdx_cons, hc]
    · have ht : ∃ x ∈ t, p x = true := by
        rcases h with ⟨x, hx, hpx⟩
        rcases List.mem_cons.mp hx with rfl | hxt
        · exact absurd hpx hc
        · exact ⟨x, hxt, hpx⟩
      simp [List.findIdx_cons, hc, ih l2 ht]

theorem findIdx_append_of_forall {α : Type} (p : α → Bool) :
    ∀ (l1 l2 : List α), (∀ x ∈ l1, p x = false) →
      (l1 ++ l2).findIdx p = l1.length + l2.findIdx p := by
  intro l1
  induction l1 with
  | nil => intro l2 _; simp
  | cons c t ih =>
    intro l2 h
    have hc : p c = false := h c (by simp)
    have ht : ∀ x ∈ t, p x = false := fun x hx => h x (List.mem_cons_of_mem _ hx)
    simp only [List.cons_append, List.findIdx_cons, hc, cond_false, List.length_cons]
    rw [ih l2 ht]
    omega

theorem buildGroups_keys (ms : List SearchResult) :
    (∀ k, k ∈ (buildGroups ms).map (·.1) ↔ ∃ x ∈ ms, x.workitem_id = k) ∧
    ((buildGroups ms).map (·.1)).Pairwise (fun k1 k2 => posOf ms k1 < posOf ms k2) := by
  induction ms using List.reverseRecOn with
  | nil =>
    constructor
    · intro k
      simp [buildGroups]
    · simp [buildGroups]
  | append_singleton l m ih =>
    obtain ⟨ihiff, ihpw⟩ := ih
    have hfold : buildGroups (l ++ [m]) =
        upsertGroup (buildGroups l) m.workitem_id m := by
      unfold buildGroups
      rw [List.foldl_append]
      rfl
    have hpos_old : ∀ k, (∃ x ∈ l, x.workitem_id = k) →
        posOf (l ++ [m]) k = posOf l k := by
      rintro k ⟨x, hx, hxk⟩
      unfold posOf
      exact findIdx_append_of_exists _ l [m] ⟨x, hx, by simp [hxk]⟩
    have hpos_lt : ∀ k, (∃ x ∈ l, x.workitem_id = k) → posOf l k < l.length := by
      rintro k ⟨x, hx, hxk⟩
      unfold posOf
      exact List.findIdx_lt_length_of_exists ⟨x, hx, by simp [hxk]⟩
    by_cases hmem : m.workitem_id ∈ (buildGroups l).map (·.1)
    · rw [hfold, upsertGroup_keys_mem m hmem]
      constructor
      · intro k
        rw [ihiff k]
        constructor
        · rintro ⟨x, hx, hxk⟩
          exact ⟨x, by simp [hx], hxk⟩
        · rintro ⟨x, hx, hxk⟩
          rcases List.mem_append.mp hx with hx1 | hx2
          · exact ⟨x, hx1, hxk⟩
          · rw [List.mem_singleton.mp hx2] at hxk
            rw [← hxk]
            exact (ihiff m.workitem_id).mp hmem
      · refine ihpw.imp_of_mem ?_
        intro a b ha hb hab
        rw [hpos_old a ((ihiff a).mp ha), hpos_old b ((ihiff b).mp hb)]
        exact hab
    · rw [hfold, upsertGroup_keys_not_mem m hmem]
      have hnotin_l : ∀ x ∈ l, (x.workitem_id == m.workitem_id) = false := by
        intro x hx
        have hne : ¬(x.workitem_id = m.workitem_id) :=
          fun he => hmem ((ihiff m.workitem_id).mpr ⟨x, hx, he⟩)
        simpa using hne
      have hpos_new : posOf (l ++ [m]) m.workitem_id = l.length := by
        unfold posOf
        rw [findIdx_append_of_forall _ l [m] hnotin_l]
        simp [List.findIdx_cons]
      constructor
      · intro k
        rw [List.mem_append, List.mem_singleton, ihiff k]
        constructor
        · rintro (⟨x, hx, hxk⟩ | rfl)
          · exact ⟨x, by simp [hx], hxk⟩
          · exact ⟨m, by simp, rfl⟩
        · rintro ⟨x, hx, hxk⟩
          rcases List.mem_append.mp hx with hx1 | hx2
          · exact Or.inl ⟨x, hx1, hxk⟩
          · rw [List.mem_singleton.mp hx2] at hxk
            exact Or.inr hxk.symm
      · rw [List.pairwise_append]
        refine ⟨?_, by simp, ?_⟩
        · refine ihpw.imp_of_mem ?_
          intro a b ha hb hab
          rw [hpos_old a ((ihiff a).mp ha), hpos_old b ((ihiff b).mp hb)]
          exact hab
        · intro a ha b hb
          rw [List.mem_singleton.mp hb, hpos_new]
          have hex := (ihiff a).mp ha
          rw [hpos_old a hex]
          exact hpos_lt a hex

/-- C4: per-entity aggregation partitions its input exactly — the
concatenation of the aggregates' contributing chunks is a permutation of
the input matches — every aggregate's `max_similarity` is the true maximum
and its `avg_similarity` the true mean of its contributing scores, and the
aggregates are sorted by `(max, avg)` descending with full ties broken by
the first-seen position of the work item in the input. -/
theorem claim_C4_aggregate_by_entity (ms : List SearchResult) :
    ((aggregate_workitems ms).flatMap (·.relevant_chunks)).Perm
      (ms.map toRelevantChunk) ∧
    (∀ w ∈ aggregate_workitems ms,
      w.relevant_chunks ≠ [] ∧
      w.chunk_count = w.relevant_chunks.length ∧
      IsMaxOf w.max_similarity (w.relevant_chunks.map (·.similarity)) ∧
      w.avg_similarity =
        (w.relevant_chunks.map (·.similarity)).sum / (w.chunk_count : ℝ)) ∧
    (aggregate_workitems ms).Pairwise (fun a b =>
      (b.max_similarity < a.max_similarity ∨
        (b.max_similarity = a.max_similarity ∧ b.avg_similarity < a.avg_similarity)) ∨
      (b.max_similarity = a.max_similarity ∧ b.avg_similarity = a.avg_similarity ∧
        posOf ms a.workitem_id < posOf ms b.workitem_id)) := by
  have hperm : (aggregate_workitems ms).Perm ((buildGroups ms).map toWorkitemResult) :=
    List.perm_insertionSort aggGE _
  refine ⟨?_, ?_, ?_⟩
  · refine ((hperm.flatMap_right (·.relevant_chunks)).trans ?_)
    have h1 : ((buildGroups ms).map toWorkitemResult).flatMap (·.relevant_chunks) =
        (buildGroups ms).flatMap (fun g => g.2.map toRelevantChunk) := by
      rw [List.flatMap_map]
      rfl
    have h2 : (buildGroups ms).flatMap (fun g => g.2.map toRelevantChunk) =
        ((buildGroups ms).flatMap (·.2)).map toRelevantChunk := by
      rw [List.map_flatMap]
    rw [h1, h2]
    exact (buildGroups_flatMap_perm ms).map toRelevantChunk
  · intro w hw
    have hw2 : w ∈ (buildGroups ms).map toWorkitemResult := hperm.mem_iff.mp hw
    rcases List.mem_map.mp hw2 with ⟨g, hg, rfl⟩
    have hwf := buildGroups_wf ms g hg
    have hmapsim : ((g.2.map toRelevantChunk).map (·.similarity)) =
        g.2.map (·.similarity) := by
      rw [List.map_map]
      rfl
    rcases List.exists_cons_of_ne_nil hwf.1 with ⟨x, xs, hx⟩
    refine ⟨?_, ?_, ?_, ?_⟩
    · show g.2.map toRelevantChunk ≠ []
      simp [hx]
    · show (g.2.map (·.similarity)).length = (g.2.map toRelevantChunk).length
      simp
    · show IsMaxOf (maxScores (g.2.map (·.similarity)))
        ((g.2.map toRelevantChunk).map (·.similarity))
      rw [hmapsim, hx]
      simp only [List.map_cons, maxScores]
      simpa using foldl_max_spec x.similarity (xs.map (·.similarity))
    · show (g.2.map (·.similarity)).sum / ((g.2.map (·.similarity)).length : ℝ) =
        ((g.2.map toRelevantChunk).map (·.similarity)).sum /
          ((g.2.map (·.similarity)).length : ℝ)
      rw [hmapsim]
  · have hpw_pre : ((buildGroups ms).map toWorkitemResult).Pairwise
        (fun a b => posOf ms a.workitem_id < posOf ms b.workitem_id) := by
      have hkeys := (buildGroups_keys ms).2
      rw [List.pairwise_map] at hkeys ⊢
      exact hkeys
    have hs := insertionSort_key_pairwise aggKey
      (fun w => posOf ms w.workitem_id) aggGE (fun a b => Iff.rfl) hpw_pre
    refine hs.imp ?_
    intro a b h
    rcases h with hlt | ⟨heq, hidx⟩
    · rcases (Prod.Lex.lt_iff _ _).mp hlt with h1 | ⟨h1, h2⟩
      · exact Or.inl (Or.inl h1)
      · exact Or.inl (Or.inr ⟨h1, h2⟩)
    · have := toLex_inj.mp heq
      have h1 : a.max_similarity = b.max_similarity := congrArg Prod.fst this
      have h2 : a.avg_similarity = b.avg_similarity := congrArg Prod.snd this
      exact Or.inr ⟨h1.symm, h2.symm, hidx⟩

/-- Witness for C4: the single-match aggregate of a score-1 match is a
non-empty aggregate whose maximum is its own score. -/
theorem claim_C4_aggregate_by_entity_witness :
    (toWorkitemResult ("", [mkScored 1])).relevant_chunks ≠ [] ∧
    (toWorkitemResult ("", [mkScored 1])).chunk_count =
      (toWorkitemResult ("", [mkScored 1])).relevant_chunks.length ∧
    IsMaxOf (toWorkitemResult ("", [mkScored 1])).max_similarity
      ((toWorkitemResult ("", [mkScored 1])).relevant_chunks.map (·.similarity)) ∧
    (toWorkitemResult ("", [mkScored 1])).avg_similarity =
      (((toWorkitemResult ("", [mkScored 1])).relevant_chunks.map (·.similarity)).sum /
        ((toWorkitemResult ("", [mkScored 1])).chunk_count : ℝ)) := by
  have heval : aggregate_workitems [mkScored 1] =
      [toWorkitemResult ("", [mkScored 1])] := rfl
  exact (claim_C4_aggregate_by_entity [mkScored 1]).2.1 _ (by rw [heval]; simp)

end ADOSpec
